import Mathlib

/-!
Verification of the audit-log repository's natural-language specification
against its source.

The development shallowly embeds:
* `src/utils/primary-key.ts` — `extractPrimaryKey`, `extractConfiguredPrimaryKey`
  and `safeStringifyForPK` over a model of JavaScript row values (including the
  replacer semantics of `JSON.stringify`, BigInt/Date handling, the WeakSet
  cycle guard, and the catch-clause fallback);
* the audit-table schema module (`auditLogs`, `assertSafeIdentifier`,
  `buildCreateAuditTableSQL`, `createAuditTableSQLFor`);
* the DELETE branch of the audit engine, which is not present under `src/`
  and is therefore modelled from the spec (marked in its doc comment).

Modelling conventions for JavaScript values:
* numbers are modelled as integers (row primary keys in scope are integral);
* a `Date` is modelled by its epoch-millisecond value; the host timezone is
  taken to be UTC, so `String(date)` renders
  "Ddd Mmm DD YYYY HH:MM:SS GMT+0000 (Coordinated Universal Time)" and
  `date.toISOString()` renders "YYYY-MM-DDTHH:mm:ss.sssZ";
* objects are references into an explicit heap, so reference sharing and
  cycles are representable; a reference absent from the heap behaves as an
  empty object (unreachable for heaps arising from real JS object graphs);
* field names are assumed not to be integer-like (JS enumerates such keys
  first; audit key fields are ordinary column names), so object key order is
  insertion order;
* `vExotic` models a host value whose JSON serialization throws (for example
  an object with a throwing property getter); `String(v)` on such an object
  still yields "[object Object]".
-/

/-- Model of a JavaScript value as stored in a row or on the heap. -/
inductive JsVal where
  | vNull
  | vUndefined
  | vBool (b : Bool)
  | vNum (n : Int)
  | vStr (s : String)
  | vBigInt (n : Int)
  | vDate (ms : Int)
  | vObj (r : Nat)
  | vExotic
deriving DecidableEq, Repr

/-- A JavaScript object: fields in insertion order. -/
abbrev Row := List (String × JsVal)

/-- The object heap: reference → object fields. -/
abbrev Heap := List (Nat × Row)

/-- `record[field]`: an absent property reads as `undefined`. -/
def rowGet (row : Row) (f : String) : JsVal :=
  match row.find? (fun p => p.1 == f) with
  | some p => p.2
  | none => JsVal.vUndefined

/-- Dereference the heap; a dangling reference behaves as an empty object. -/
def heapGet (heap : Heap) (r : Nat) : Row :=
  match heap.find? (fun p => p.1 == r) with
  | some p => p.2
  | none => []

/-- Whether the heap has an entry for reference `r`. -/
def heapHas (heap : Heap) (r : Nat) : Bool :=
  heap.any (fun p => p.1 == r)

/-- `obj[k] = v`: overwrite in place if the key exists, else append. -/
def objSet (row : Row) (f : String) (v : JsVal) : Row :=
  if row.any (fun p => p.1 == f) then
    row.map (fun p => if p.1 == f then (f, v) else p)
  else row ++ [(f, v)]

/-- JavaScript loose `value == null`: true for `null` and `undefined`. -/
def isNullish (v : JsVal) : Bool :=
  v == JsVal.vNull || v == JsVal.vUndefined

/-! ### Date rendering (UTC host) -/

def msPerDay : Int := 86400000

/-- Zero-pad to two digits. -/
def pad2 (n : Int) : String :=
  if n < 10 then "0" ++ toString n else toString n

/-- Zero-pad to three digits. -/
def pad3 (n : Int) : String :=
  if n < 10 then "00" ++ toString n
  else if n < 100 then "0" ++ toString n
  else toString n

/-- Zero-pad a year to four digits. -/
def pad4 (n : Int) : String :=
  if n < 10 then "000" ++ toString n
  else if n < 100 then "00" ++ toString n
  else if n < 1000 then "0" ++ toString n
  else toString n

/-- Proleptic-Gregorian civil date from days since 1970-01-01. -/
def civilFromDays (z0 : Int) : Int × Int × Int :=
  let z := z0 + 719468
  let era := Int.ediv z 146097
  let doe := z - era * 146097
  let yoe := Int.ediv (doe - Int.ediv doe 1460 + Int.ediv doe 36524 - Int.ediv doe 146096) 365
  let y := yoe + era * 400
  let doy := doe - (365 * yoe + Int.ediv yoe 4 - Int.ediv yoe 100)
  let mp := Int.ediv (5 * doy + 2) 153
  let d := doy - Int.ediv (153 * mp + 2) 5 + 1
  let m := mp + (if mp < 10 then 3 else -9)
  (y + (if m ≤ 2 then 1 else 0), m, d)

def weekdayNames : List String := ["Sun", "Mon", "Tue", "Wed", "Thu", "Fri", "Sat"]

def monthNames : List String :=
  ["Jan", "Feb", "Mar", "Apr", "May", "Jun", "Jul", "Aug", "Sep", "Oct", "Nov", "Dec"]

/-- `date.toISOString()` for a date of `ms` epoch milliseconds. -/
def dateToISOString (ms : Int) : String :=
  let day := Int.ediv ms msPerDay
  let tod := ms - day * msPerDay
  let ymd := civilFromDays day
  pad4 ymd.1 ++ "-" ++ pad2 ymd.2.1 ++ "-" ++ pad2 ymd.2.2 ++ "T" ++
    pad2 (Int.ediv tod 3600000) ++ ":" ++ pad2 (Int.ediv (Int.emod tod 3600000) 60000) ++ ":" ++
    pad2 (Int.ediv (Int.emod tod 60000) 1000) ++ "." ++ pad3 (Int.emod tod 1000) ++ "Z"

/-- `String(date)` / `date.toString()` on a UTC host. -/
def dateToDefaultString (ms : Int) : String :=
  let day := Int.ediv ms msPerDay
  let tod := ms - day * msPerDay
  let ymd := civilFromDays day
  weekdayNames.getD (Int.toNat (Int.emod (day + 4) 7)) "" ++ " " ++
    monthNames.getD (Int.toNat (ymd.2.1 - 1)) "" ++ " " ++ pad2 ymd.2.2 ++ " " ++ pad4 ymd.1 ++ " " ++
    pad2 (Int.ediv tod 3600000) ++ ":" ++ pad2 (Int.ediv (Int.emod tod 3600000) 60000) ++ ":" ++
    pad2 (Int.ediv (Int.emod tod 60000) 1000) ++ " GMT+0000 (Coordinated Universal Time)"

/-- JavaScript `String(value)` coercion. -/
def jsStringCoerce : JsVal → String
  | JsVal.vNull => "null"
  | JsVal.vUndefined => "undefined"
  | JsVal.vBool b => cond b "true" "false"
  | JsVal.vNum n => toString n
  | JsVal.vStr s => s
  | JsVal.vBigInt n => toString n
  | JsVal.vDate ms => dateToDefaultString ms
  | JsVal.vObj _ => "[object Object]"
  | JsVal.vExotic => "[object Object]"

/-! ### `JSON.stringify` with the replacer of `safeStringifyForPK`

`safeStringifyForPK` (src/utils/primary-key.ts:57-87) calls
`JSON.stringify(record, replacer)` where the replacer stringifies BigInt,
is a no-op on Dates (a Date is converted to its ISO string by `toJSON`
before the replacer runs, so the `instanceof Date` branch never fires but
the emitted text is the ISO string either way), and replaces any object
already in a `WeakSet` by the string "[Circular]", adding fresh objects to
the set.  The set persists over the whole traversal, so shared as well as
cyclic references hit the guard.

The model threads the seen-set explicitly and uses step-counting fuel so
that the function is structurally recursive and computable; the theorem
for C6 shows the fuel bound `pkFuel` is never exhausted. -/

/-- Escape a character for a JSON string literal. -/
def jsonEscapeChar (c : Char) : String :=
  if c = '\\' then "\\\\"
  else if c = '"' then "\\\""
  else if c = '\n' then "\\n"
  else if c = '\t' then "\\t"
  else if c = '\r' then "\\r"
  else String.singleton c

/-- JSON string literal. -/
def jsonQuote (s : String) : String :=
  "\"" ++ String.join (s.toList.map jsonEscapeChar) ++ "\""

/-- Outcome of one serialization step. -/
inductive SerOut where
  | ok (s : String)
  | thrown
  | fuelOut
deriving DecidableEq, Repr

/-- Pending serialization work: a single value or an object's field list. -/
inductive SerTask where
  | val (v : JsVal)
  | fields (l : List (String × JsVal))
deriving DecidableEq, Repr

/-- One traversal of `JSON.stringify(·, replacer)`.  Returns the serialized
fragment (or `thrown`/`fuelOut`) together with the updated seen-set. -/
def serT (heap : Heap) : Nat → List Nat → SerTask → SerOut × List Nat
  | _, seen, SerTask.val JsVal.vNull => (SerOut.ok "null", seen)
  | _, seen, SerTask.val JsVal.vUndefined => (SerOut.ok "null", seen)
  | _, seen, SerTask.val (JsVal.vBool b) => (SerOut.ok (cond b "true" "false"), seen)
  | _, seen, SerTask.val (JsVal.vNum n) => (SerOut.ok (toString n), seen)
  | _, seen, SerTask.val (JsVal.vStr s) => (SerOut.ok (jsonQuote s), seen)
  | _, seen, SerTask.val (JsVal.vBigInt n) => (SerOut.ok (jsonQuote (toString n)), seen)
  | _, seen, SerTask.val (JsVal.vDate ms) => (SerOut.ok (jsonQuote (dateToISOString ms)), seen)
  | _, seen, SerTask.val JsVal.vExotic => (SerOut.thrown, seen)
  | fuel, seen, SerTask.val (JsVal.vObj r) =>
      if r ∈ seen then (SerOut.ok (jsonQuote "[Circular]"), seen)
      else
        match fuel with
        | 0 => (SerOut.fuelOut, seen)
        | f + 1 =>
          match serT heap f (r :: seen) (SerTask.fields (heapGet heap r)) with
          | (SerOut.ok body, seen2) => (SerOut.ok ("\x7b" ++ body ++ "\x7d"), seen2)
          | out => out
  | _, seen, SerTask.fields [] => (SerOut.ok "", seen)
  | fuel, seen, SerTask.fields ((k, v) :: rest) =>
      match fuel with
      | 0 => (SerOut.fuelOut, seen)
      | f + 1 =>
        if v = JsVal.vUndefined then serT heap f seen (SerTask.fields rest)
        else
          match serT heap f seen (SerTask.val v) with
          | (SerOut.ok s, seen1) =>
            match serT heap f seen1 (SerTask.fields rest) with
            | (SerOut.ok s2, seen2) =>
              (SerOut.ok (jsonQuote k ++ ":" ++ s ++ (if s2 = "" then "" else "," ++ s2)), seen2)
            | out => out
          | out => out

/-- Fuel potential of the not-yet-visited part of the heap. -/
def heapPotential (heap : Heap) (seen : List Nat) : Nat :=
  match heap with
  | [] => 0
  | (r, flds) :: rest =>
      (if r ∈ seen then 0 else 2 * flds.length + 1) + heapPotential rest seen

/-- Fuel needed to finish a task (proved sufficient below). -/
def serMeasure (heap : Heap) (seen : List Nat) : SerTask → Nat
  | SerTask.val _ => 1 + heapPotential heap seen
  | SerTask.fields l => 2 * l.length + heapPotential heap seen

/-- Fuel handed to the top-level `JSON.stringify` call. -/
def pkFuel (heap : Heap) (resolved : Row) : Nat :=
  serMeasure heap [] (SerTask.fields resolved)

/-- Sorted insertion for `Array.prototype.sort()` on strings. -/
def insertSorted (s : String) : List String → List String
  | [] => [s]
  | t :: ts => if compare s t = Ordering.gt then t :: insertSorted s ts else s :: t :: ts

/-- `Object.keys(record).sort()`. -/
def sortStrings (l : List String) : List String :=
  l.foldr insertSorted []

/-- The catch-clause fallback of `safeStringifyForPK` (lines 82-86):
`composite_key_${keys.join("_")}_${keys.length}` over sorted object keys. -/
def compositeFallback (record : Row) : String :=
  let keys := sortStrings (record.map Prod.fst)
  "composite_key_" ++ String.intercalate "_" keys ++ "_" ++ toString keys.length

/-- `safeStringifyForPK` (src/utils/primary-key.ts:57-87): serialize with the
replacer; on a thrown serialization error return the deterministic fallback.
(`fuelOut` is a model artifact shown unreachable; it is mapped to the
fallback so the function is total.) -/
def safeStringifyForPK (heap : Heap) (record : Row) : String :=
  match serT heap (pkFuel heap record) [] (SerTask.fields record) with
  | (SerOut.ok body, _) => "\x7b" ++ body ++ "\x7d"
  | _ => compositeFallback record

/-! ### Primary-key extraction (src/utils/primary-key.ts) -/

/-- A `primaryKeyMap` entry: `string | string[]`. -/
inductive PKKey where
  | single (f : String)
  | multi (fs : List String)
deriving DecidableEq, Repr

/-- The mapping from table name to key specification. -/
abbrev PKMap := List (String × PKKey)

/-- The two throw sites of `extractPrimaryKey`; the spec names them
`ConfigurationError` ("primaryKeyMap missing key for table") and
`MissingKeyError` ("primaryKeyMap fields missing in record for table"). -/
inductive PKError where
  | configMissing (table : String)
  | fieldsMissing (table : String)
deriving DecidableEq, Repr

/-- `Array.isArray(key) ? key : [key]`. -/
def pkFields : PKKey → List String
  | PKKey.single f => [f]
  | PKKey.multi fs => fs

/-- JavaScript truthiness of a `primaryKeyMap` entry: an empty string is
falsy, every array (even empty) is truthy. -/
def pkTruthy : PKKey → Bool
  | PKKey.single f => !(f == "")
  | PKKey.multi _ => true

/-- `primaryKeyMap[tableName]`. -/
def pkLookup (m : PKMap) (t : String) : Option PKKey :=
  match m.find? (fun p => p.1 == t) with
  | some p => some p.2
  | none => none

/-- The `for (const field of keys)` loop of `extractConfiguredPrimaryKey`:
build `resolved`, returning `none` at the first null/undefined field. -/
def buildResolvedGo (record : Row) (acc : Row) : List String → Option Row
  | [] => some acc
  | f :: fs =>
      let v := rowGet record f
      if isNullish v then none else buildResolvedGo record (objSet acc f v) fs

/-- `extractConfiguredPrimaryKey` (src/utils/primary-key.ts:33-51). -/
def extractConfiguredPrimaryKey (heap : Heap) (record : Row) (key : PKKey) : Option String :=
  let keys := pkFields key
  match buildResolvedGo record [] keys with
  | none => none
  | some resolved =>
    match keys with
    | [f] => some (jsStringCoerce (rowGet resolved f))
    | _ => some (safeStringifyForPK heap resolved)

/-- `extractPrimaryKey` (src/utils/primary-key.ts:5-20). -/
def extractPrimaryKey (heap : Heap) (record : Row) (tableName : String)
    (primaryKeyMap : PKMap) : Except PKError String :=
  match pkLookup primaryKeyMap tableName with
  | none => Except.error (PKError.configMissing tableName)
  | some configuredKey =>
    if pkTruthy configuredKey then
      match extractConfiguredPrimaryKey heap record configuredKey with
      | none => Except.error (PKError.fieldsMissing tableName)
      | some s => Except.ok s
    else Except.error (PKError.configMissing tableName)

deriving instance DecidableEq for Except

/-! ### Audit store schema (drizzle `auditLogs` table declaration) -/

/-- Column types appearing in the `auditLogs` drizzle schema. -/
inductive ColType where
  | bigserialT
  | varcharT (len : Nat)
  | textT
  | jsonbT
  | timestamptzT
deriving DecidableEq, BEq, Repr

/-- One declared column. -/
structure Column where
  name : String
  ctype : ColType
  notNull : Bool
deriving DecidableEq, Repr

/-- The `auditLogs` pgTable declaration (schema module lines 8-35). -/
def auditLogsColumns : List Column :=
  [ ⟨"id", ColType.bigserialT, true⟩,
    ⟨"user_id", ColType.varcharT 255, false⟩,
    ⟨"ip_address", ColType.varcharT 45, false⟩,
    ⟨"user_agent", ColType.textT, false⟩,
    ⟨"action", ColType.varcharT 255, true⟩,
    ⟨"table_name", ColType.varcharT 255, true⟩,
    ⟨"record_id", ColType.varcharT 255, true⟩,
    ⟨"values", ColType.jsonbT, false⟩,
    ⟨"created_at", ColType.timestamptzT, true⟩,
    ⟨"metadata", ColType.jsonbT, false⟩,
    ⟨"transaction_id", ColType.varcharT 255, false⟩,
    ⟨"deleted_at", ColType.timestamptzT, false⟩ ]

/-- The index declarations of the `auditLogs` pgTable (lines 36-43). -/
def auditLogsIndexes : List (String × List String) :=
  [ ("idx_audit_logs_table_record", ["table_name", "record_id"]),
    ("idx_audit_logs_user_id", ["user_id"]),
    ("idx_audit_logs_created_at", ["created_at"]),
    ("idx_audit_logs_action", ["action"]),
    ("idx_audit_logs_table_created", ["table_name", "created_at"]) ]

/-! ### SQL provisioning (`buildCreateAuditTableSQL`, `createAuditTableSQLFor`) -/

/-- A single-quote character (SQL string delimiter). -/
def sqm : String := String.singleton (Char.ofNat 39)

/-- The regular expression `^[a-zA-Z_][a-zA-Z0-9_]*$` of `assertSafeIdentifier`:
first character test. -/
def isIdentStart (c : Char) : Bool :=
  (c ≥ 'a' && c ≤ 'z') || (c ≥ 'A' && c ≤ 'Z') || c = '_'

/-- Subsequent-character test of the identifier pattern. -/
def isIdentChar (c : Char) : Bool :=
  isIdentStart c || (c ≥ '0' && c ≤ '9')

/-- Whether a table name matches `^[a-zA-Z_][a-zA-Z0-9_]*$`. -/
def isSafeIdentifier (s : String) : Bool :=
  match s.toList with
  | [] => false
  | c :: cs => isIdentStart c && cs.all isIdentChar

/-- The template literal of `buildCreateAuditTableSQL`, transcribed chunk by
chunk around the `${tableName}` interpolations. -/
def auditTableSQLText (n : String) : String :=
  "\n-- Prevent concurrent test runs from racing on schema creation\nSELECT pg_advisory_xact_lock(913742, 540129);\n\nCREATE SEQUENCE IF NOT EXISTS " ++
  n ++ "_id_seq;\n\nCREATE TABLE IF NOT EXISTS " ++ n ++
  " (\n  id BIGINT PRIMARY KEY DEFAULT nextval(" ++ sqm ++ n ++ "_id_seq" ++ sqm ++
  "),\n  \n  user_id VARCHAR(255),\n  ip_address VARCHAR(45),\n  user_agent TEXT,\n  \n  action VARCHAR(255) NOT NULL,\n  table_name VARCHAR(255) NOT NULL,\n  record_id VARCHAR(255) NOT NULL,\n  \n  \"values\" JSONB,\n  \n  created_at TIMESTAMPTZ NOT NULL DEFAULT NOW(),\n  \n  metadata JSONB,\n  transaction_id VARCHAR(255),\n  \n  deleted_at TIMESTAMPTZ\n);\n\nALTER SEQUENCE " ++
  n ++ "_id_seq OWNED BY " ++ n ++
  ".id;\n\n-- Ensure custom actions are allowed when table already exists\nALTER TABLE " ++
  n ++ " DROP CONSTRAINT IF EXISTS audit_logs_action_check;\nALTER TABLE " ++ n ++
  " ALTER COLUMN action TYPE VARCHAR(255);\n\n" ++
  "CREATE INDEX IF NOT EXISTS idx_audit_logs_table_record ON " ++ n ++ "(table_name, record_id);\n" ++
  "CREATE INDEX IF NOT EXISTS idx_audit_logs_user_id ON " ++ n ++ "(user_id) WHERE user_id IS NOT NULL;\n" ++
  "CREATE INDEX IF NOT EXISTS idx_audit_logs_created_at ON " ++ n ++ "(created_at DESC);\n" ++
  "CREATE INDEX IF NOT EXISTS idx_audit_logs_action ON " ++ n ++ "(action);\n" ++
  "CREATE INDEX IF NOT EXISTS idx_audit_logs_table_created ON " ++ n ++ "(table_name, created_at DESC);\n" ++
  "\nCOMMENT ON TABLE " ++ n ++ " IS " ++ sqm ++ "Audit trail for all database operations" ++ sqm ++ ";\n"

/-- `buildCreateAuditTableSQL` (schema module lines 58-102): `assertSafeIdentifier`
throws on a non-matching name, otherwise the template is returned. -/
def buildCreateAuditTableSQL (tableName : String) : Except String String :=
  if isSafeIdentifier tableName then Except.ok (auditTableSQLText tableName)
  else Except.error ("Invalid table name: " ++ tableName)

def DEFAULT_TABLE_NAME : String := "audit_logs"

/-- `createAuditTableSQL` (line 108). -/
def createAuditTableSQL : Except String String :=
  buildCreateAuditTableSQL DEFAULT_TABLE_NAME

/-- `createAuditTableSQLFor` (lines 113-115); the source gives `tableName` the
default value `DEFAULT_TABLE_NAME`, passed explicitly here. -/
def createAuditTableSQLFor (tableName : String) : Except String String :=
  buildCreateAuditTableSQL tableName

/-- Whether an `Except` is a success. -/
def exceptIsOk {ε α : Type} : Except ε α → Bool
  | Except.ok _ => true
  | Except.error _ => false

/-! ### The DELETE branch of the audit engine -/

/-- Engine configuration after the DELETE simplification: `captureOldValues`
is the only capture option (history/2-delete-simplification.md). -/
structure AuditConfig where
  captureOldValues : Bool
deriving DecidableEq, Repr

/-- An audit record as built by the engine (persisted fields that the DELETE
path determines). -/
structure AuditRecordM where
  action : String
  tableName : String
  recordId : String
  oldValues : Option Row
  newValues : Option Row
  userId : Option String
deriving DecidableEq, Repr

/-- Modelled from the spec: the DELETE path of the audit engine
(`createExecutionProxy` / `createAuditLogs`), whose source is not under
`src/`.  Per spec §4.2 and history/2-delete-simplification.md, DELETE always
uses the returning strategy (auto-injected `.returning()`); the engine builds
one record per returned row with `oldValues` the removed row, `newValues`
null, and identity from the source `extractPrimaryKey`; no configuration is
consulted.  The configuration argument is accepted (and provably ignored). -/
def auditDelete (_cfg : AuditConfig) (heap : Heap) (pkMap : PKMap) (ctx : Option String)
    (tableName : String) : List Row → Except PKError (List AuditRecordM)
  | [] => Except.ok []
  | row :: rest =>
    match extractPrimaryKey heap row tableName pkMap with
    | Except.error e => Except.error e
    | Except.ok rid =>
      match auditDelete _cfg heap pkMap ctx tableName rest with
      | Except.error e => Except.error e
      | Except.ok recs =>
        Except.ok ({ action := "DELETE", tableName := tableName, recordId := rid,
                     oldValues := some row, newValues := none, userId := ctx } :: recs)


/-- The `resolved` object built by the key loop when every field is present. -/
def resolvedOf (record : Row) (keys : List String) : Row :=
  keys.foldl (fun a f => objSet a f (rowGet record f)) []

/-! ## Helper lemmas -/

/-- The serializer only ever adds to the seen-set. -/
theorem serT_subset (heap : Heap) (fuel : Nat) :
    ∀ (seen : List Nat) (task : SerTask), seen ⊆ (serT heap fuel seen task).2 := by
  induction fuel with
  | zero =>
    intro seen task
    match task with
    | SerTask.val (JsVal.vObj r) =>
      simp only [serT]
      split
      · simp
      · simp
    | SerTask.val JsVal.vNull => simp [serT]
    | SerTask.val JsVal.vUndefined => simp [serT]
    | SerTask.val (JsVal.vBool b) => simp [serT]
    | SerTask.val (JsVal.vNum n) => simp [serT]
    | SerTask.val (JsVal.vStr s) => simp [serT]
    | SerTask.val (JsVal.vBigInt n) => simp [serT]
    | SerTask.val (JsVal.vDate ms) => simp [serT]
    | SerTask.val JsVal.vExotic => simp [serT]
    | SerTask.fields [] => simp [serT]
    | SerTask.fields ((k, v) :: rest) => simp [serT]
  | succ f ih =>
    intro seen task
    match task with
    | SerTask.val (JsVal.vObj r) =>
      simp only [serT]
      split
      · simp
      · have h1 : seen ⊆ (serT heap f (r :: seen) (SerTask.fields (heapGet heap r))).2 :=
          fun x hx => ih (r :: seen) (SerTask.fields (heapGet heap r)) (List.mem_cons_of_mem _ hx)
        split
        · next body seen2 heq =>
          rw [heq] at h1; exact h1
        · exact h1
    | SerTask.val JsVal.vNull => simp [serT]
    | SerTask.val JsVal.vUndefined => simp [serT]
    | SerTask.val (JsVal.vBool b) => simp [serT]
    | SerTask.val (JsVal.vNum n) => simp [serT]
    | SerTask.val (JsVal.vStr s) => simp [serT]
    | SerTask.val (JsVal.vBigInt n) => simp [serT]
    | SerTask.val (JsVal.vDate ms) => simp [serT]
    | SerTask.val JsVal.vExotic => simp [serT]
    | SerTask.fields [] => simp [serT]
    | SerTask.fields ((k, v) :: rest) =>
      simp only [serT]
      split
      · exact ih seen (SerTask.fields rest)
      · split
        · next s seen1 heq1 =>
          have h1 : seen ⊆ seen1 := by
            have := ih seen (SerTask.val v); rw [heq1] at this; exact this
          split
          · next s2 seen2 heq2 =>
            have h2 := ih seen1 (SerTask.fields rest); rw [heq2] at h2
            exact fun x hx => h2 (h1 hx)
          · exact fun x hx => ih seen1 (SerTask.fields rest) (h1 hx)
        · exact ih seen (SerTask.val v)

/-- Visiting a larger seen-set can only lower the remaining potential. -/
theorem heapPotential_mono (heap : Heap) {seen seen' : List Nat} (h : seen ⊆ seen') :
    heapPotential heap seen' ≤ heapPotential heap seen := by
  induction heap with
  | nil => simp [heapPotential]
  | cons p rest ih =>
    obtain ⟨r, flds⟩ := p
    simp only [heapPotential]
    have hhd : (if r ∈ seen' then 0 else 2 * flds.length + 1)
        ≤ (if r ∈ seen then 0 else 2 * flds.length + 1) := by
      by_cases hr : r ∈ seen
      · simp [hr, h hr]
      · by_cases hr' : r ∈ seen' <;> simp [hr, hr']
    exact Nat.add_le_add hhd ih

/-- A reference the heap does not know dereferences to the empty object. -/
theorem heapGet_of_not_has {heap : Heap} {r : Nat} (h : heapHas heap r = false) :
    heapGet heap r = [] := by
  unfold heapGet
  have hn : heap.find? (fun p => p.1 == r) = none := by
    rw [List.find?_eq_none]
    intro p hp hb
    have ht : heap.any (fun p => p.1 == r) = true := List.any_eq_true.2 ⟨p, hp, hb⟩
    rw [heapHas] at h
    rw [h] at ht
    exact Bool.false_ne_true ht
  rw [hn]

/-- Marking an unseen reference as seen releases at least its own weight. -/
theorem heapPotential_extract (heap : Heap) (r : Nat) (seen : List Nat) (hr : r ∉ seen) :
    (if heapHas heap r then 2 * (heapGet heap r).length + 1 else 0) +
      heapPotential heap (r :: seen) ≤ heapPotential heap seen := by
  induction heap with
  | nil => simp [heapHas, heapPotential]
  | cons p rest ih =>
    obtain ⟨r', flds⟩ := p
    by_cases hrr : r' = r
    · subst hrr
      have hmono := @heapPotential_mono rest seen (r' :: seen)
        (fun x hx => List.mem_cons_of_mem _ hx)
      simp [heapHas, heapGet, heapPotential, hr, List.find?]
      omega
    · have hne : (r' == r) = false := by simp [hrr]
      have hmem : (r' ∈ r :: seen) ↔ (r' ∈ seen) := by
        constructor
        · intro hx
          rcases List.mem_cons.1 hx with h1 | h1
          · exact absurd h1 hrr
          · exact h1
        · exact fun hx => List.mem_cons_of_mem _ hx
      simp only [heapHas, heapGet, heapPotential, List.any_cons, List.find?, hne,
        Bool.false_or, cond_false] at *
      by_cases hr' : r' ∈ seen
      · simp [hr', hmem.2 hr'] at *
        omega
      · have : r' ∉ r :: seen := fun hx => hr' (hmem.1 hx)
        simp [hr', this] at *
        omega

/-- Fuel adequacy: with at least `serMeasure` fuel the serializer never runs
out — the traversal of any heap (cyclic or not) terminates. -/
theorem serT_no_fuelOut (heap : Heap) (fuel : Nat) :
    ∀ (seen : List Nat) (task : SerTask), serMeasure heap seen task ≤ fuel →
      (serT heap fuel seen task).1 ≠ SerOut.fuelOut := by
  induction fuel with
  | zero =>
    intro seen task hle
    match task with
    | SerTask.val v => simp [serMeasure] at hle
    | SerTask.fields [] => simp [serT]
    | SerTask.fields ((k, v) :: rest) => simp [serMeasure] at hle
  | succ f ih =>
    intro seen task hle
    match task with
    | SerTask.val (JsVal.vObj r) =>
      simp only [serT]
      split
      · simp
      · next hrns =>
        have hPhi : heapPotential heap seen ≤ f := by
          simp [serMeasure] at hle; omega
        have hneed : serMeasure heap (r :: seen) (SerTask.fields (heapGet heap r)) ≤ f := by
          by_cases hhas : heapHas heap r
          · have hext := heapPotential_extract heap r seen hrns
            rw [if_pos hhas] at hext
            simp only [serMeasure]
            omega
          · have hfalse : heapHas heap r = false := by simpa using hhas
            have hget := heapGet_of_not_has hfalse
            have hmono := @heapPotential_mono heap seen (r :: seen)
              (fun x hx => List.mem_cons_of_mem _ hx)
            simp only [serMeasure, hget, List.length_nil]
            omega
        have hne := ih (r :: seen) (SerTask.fields (heapGet heap r)) hneed
        split
        · simp
        · exact hne
    | SerTask.val JsVal.vNull => simp [serT]
    | SerTask.val JsVal.vUndefined => simp [serT]
    | SerTask.val (JsVal.vBool b) => simp [serT]
    | SerTask.val (JsVal.vNum n) => simp [serT]
    | SerTask.val (JsVal.vStr s) => simp [serT]
    | SerTask.val (JsVal.vBigInt n) => simp [serT]
    | SerTask.val (JsVal.vDate ms) => simp [serT]
    | SerTask.val JsVal.vExotic => simp [serT]
    | SerTask.fields [] => simp [serT]
    | SerTask.fields ((k, v) :: rest) =>
      have hmeas : 2 * rest.length + 2 + heapPotential heap seen ≤ f + 1 := by
        simpa [serMeasure, Nat.mul_add] using hle
      simp only [serT]
      split
      · exact ih seen (SerTask.fields rest) (by simp [serMeasure]; omega)
      · split
        · next s seen1 heq1 =>
          have hsub : seen ⊆ seen1 := by
            have := serT_subset heap f seen (SerTask.val v); rw [heq1] at this; exact this
          have hmono := heapPotential_mono heap hsub
          split
          · simp
          · exact ih seen1 (SerTask.fields rest) (by simp [serMeasure]; omega)
        · exact ih seen (SerTask.val v) (by simp [serMeasure]; omega)

/-- The key loop fails as soon as any configured field is null/undefined. -/
theorem buildResolvedGo_none (record : Row) (f : String)
    (hf : isNullish (rowGet record f) = true) :
    ∀ (keys : List String) (acc : Row), f ∈ keys → buildResolvedGo record acc keys = none := by
  intro keys
  induction keys with
  | nil => intro acc h; exact absurd h (List.not_mem_nil f)
  | cons g gs ih =>
    intro acc hmem
    by_cases hg : isNullish (rowGet record g) = true
    · simp [buildResolvedGo, hg]
    · have hmemtail : f ∈ gs := by
        rcases List.mem_cons.1 hmem with h1 | h1
        · subst h1; exact absurd hf hg
        · exact h1
      simp only [Bool.not_eq_true] at hg
      simp only [buildResolvedGo, hg, Bool.false_eq_true, if_false]
      exact ih _ hmemtail

/-- When every configured field is present the key loop succeeds with the
fold of `objSet` assignments. -/
theorem buildResolvedGo_some (record : Row) :
    ∀ (keys : List String) (acc : Row),
      (∀ f ∈ keys, isNullish (rowGet record f) = false) →
      buildResolvedGo record acc keys =
        some (keys.foldl (fun a f => objSet a f (rowGet record f)) acc) := by
  intro keys
  induction keys with
  | nil => intro acc h; simp [buildResolvedGo]
  | cons g gs ih =>
    intro acc h
    have hg := h g (List.mem_cons_self g gs)
    simp only [buildResolvedGo, hg, Bool.false_eq_true, if_false, List.foldl_cons]
    exact ih _ (fun f hf => h f (List.mem_cons_of_mem _ hf))

theorem buildResolvedGo_resolvedOf (record : Row) (keys : List String)
    (h : ∀ f ∈ keys, isNullish (rowGet record f) = false) :
    buildResolvedGo record [] keys = some (resolvedOf record keys) :=
  buildResolvedGo_some record keys [] h

/-- The key loop reads the record only at the configured fields. -/
theorem buildResolvedGo_congr (r1 r2 : Row) :
    ∀ (keys : List String), (∀ f ∈ keys, rowGet r1 f = rowGet r2 f) →
      ∀ acc, buildResolvedGo r1 acc keys = buildResolvedGo r2 acc keys := by
  intro keys
  induction keys with
  | nil => intro h acc; rfl
  | cons g gs ih =>
    intro h acc
    have hg := h g (List.mem_cons_self g gs)
    simp only [buildResolvedGo, hg]
    by_cases hn : isNullish (rowGet r2 g) = true
    · simp [hn]
    · simp only [Bool.not_eq_true] at hn
      simp only [hn, Bool.false_eq_true, if_false]
      exact ih (fun f hf => h f (List.mem_cons_of_mem _ hf)) _

theorem extractConfigured_congr (heap : Heap) (r1 r2 : Row) (key : PKKey)
    (h : ∀ f ∈ pkFields key, rowGet r1 f = rowGet r2 f) :
    extractConfiguredPrimaryKey heap r1 key = extractConfiguredPrimaryKey heap r2 key := by
  simp only [extractConfiguredPrimaryKey]
  rw [buildResolvedGo_congr r1 r2 (pkFields key) h []]

/-- After a successful, truthy lookup, `extractPrimaryKey` is decided by
`extractConfiguredPrimaryKey`. -/
theorem extractPK_of_configured (heap : Heap) (row : Row) (t : String) (pkMap : PKMap)
    (ck : PKKey) (hlook : pkLookup pkMap t = some ck) (htru : pkTruthy ck = true) :
    extractPrimaryKey heap row t pkMap =
      (match extractConfiguredPrimaryKey heap row ck with
       | none => Except.error (PKError.fieldsMissing t)
       | some s => Except.ok s) := by
  simp only [extractPrimaryKey, hlook, htru, if_true]

theorem configured_none_of_missing (heap : Heap) (row : Row) (ck : PKKey)
    (hbr : buildResolvedGo row [] (pkFields ck) = none) :
    extractConfiguredPrimaryKey heap row ck = none := by
  simp only [extractConfiguredPrimaryKey]
  rw [hbr]

/-- The single-field branch returns the `String(...)` coercion of the value. -/
theorem configured_single (heap : Heap) (row : Row) (f : String)
    (hpres : isNullish (rowGet row f) = false) :
    extractConfiguredPrimaryKey heap row (PKKey.single f) =
      some (jsStringCoerce (rowGet row f)) := by
  simp only [extractConfiguredPrimaryKey, pkFields]
  have hres : buildResolvedGo row [] [f] = some [(f, rowGet row f)] := by
    simp [buildResolvedGo, hpres, objSet]
  rw [hres]
  simp [rowGet, List.find?]

/-! ## Claim theorems -/

/-- C1: DELETE auditing is unconditional and per-row.  For every
configuration (quantifying over two arbitrary configurations shows no
option influences the result), the DELETE path of the engine produces the
same records; a DELETE whose statement returned zero rows yields zero
audit records and no error; and on success exactly one record is built per
removed row. -/
theorem c1_delete_unconditional_one_record_per_row (cfg cfg' : AuditConfig) (heap : Heap)
    (pkMap : PKMap) (ctx : Option String) (t : String) (rows : List Row) :
    auditDelete cfg heap pkMap ctx t rows = auditDelete cfg' heap pkMap ctx t rows ∧
    auditDelete cfg heap pkMap ctx t [] = Except.ok [] ∧
    Except.map List.length (auditDelete cfg heap pkMap ctx t rows) =
      Except.map (fun _ => rows.length) (auditDelete cfg heap pkMap ctx t rows) := by
  refine ⟨?_, rfl, ?_⟩
  · induction rows with
    | nil => rfl
    | cons r rest ih =>
      simp only [auditDelete]
      rw [ih]
  · induction rows with
    | nil => rfl
    | cons r rest ih =>
      simp only [auditDelete]
      cases hpk : extractPrimaryKey heap r t pkMap with
      | error e => rfl
      | ok rid =>
        cases hrec : auditDelete cfg heap pkMap ctx t rest with
        | error e => rfl
        | ok recs =>
          rw [hrec] at ih
          simp only [Except.map] at ih ⊢
          simp only [Except.ok.injEq] at ih
          simp [ih]

/-- C2: evaluation of the declared schema at the claim's failing shape.  The
`auditLogs` table declares exactly one structured (jsonb) data-payload
column, named "values", beside the free-form `metadata` column; there is no
`old_values`/`new_values` column pair, so an UPDATE record cannot persist a
before snapshot and an after snapshot in two distinct columns as the claim
(and the repository's own tests, which read both `oldValues` and
`newValues` off an `auditLogs` row) requires. -/
theorem c2_schema_single_values_payload_column :
    (auditLogsColumns.filter (fun c => c.ctype == ColType.jsonbT)).map Column.name =
      ["values", "metadata"] ∧
    auditLogsColumns.all (fun c => !(c.name == "old_values") && !(c.name == "new_values")) = true ∧
    (auditLogsColumns.map Column.name).contains "old_values" = false := by decide

/-- C3 counterexample: a primary-key specification can hold an entry for a
table — the single empty-string field name — for which the configured field
is absent from the row, yet `extractPrimaryKey` fails with the
`ConfigurationError`-style error ("missing key for table"), not the
`MissingKeyError`-style one, because JavaScript truthiness conflates the
empty-string entry with an absent entry. -/
theorem c3_empty_single_field_counterexample :
    pkLookup [("users", PKKey.single "")] "users" = some (PKKey.single "") ∧
    isNullish (rowGet [] "") = true ∧
    extractPrimaryKey [] [] "users" [("users", PKKey.single "")] =
      Except.error (PKError.configMissing "users") := by decide

/-- C3 (amended): for every row, table and specification whose entry for the
table is truthy (a field list, or a non-empty single field name), if any
configured key field is null or undefined on the row then `extractPrimaryKey`
fails with the `MissingKeyError`-style error rather than returning an
identity.  (The claim as stated also covers the falsy single empty-string
entry, where the code reports the `ConfigurationError`-style error instead —
see the counterexample.) -/
theorem c3_missing_key_fields_error (heap : Heap) (row : Row) (t : String) (pkMap : PKMap)
    (ck : PKKey) (hlook : pkLookup pkMap t = some ck) (htru : pkTruthy ck = true)
    (f : String) (hf : f ∈ pkFields ck) (hnull : isNullish (rowGet row f) = true) :
    extractPrimaryKey heap row t pkMap = Except.error (PKError.fieldsMissing t) := by
  rw [extractPK_of_configured heap row t pkMap ck hlook htru,
    configured_none_of_missing heap row ck (buildResolvedGo_none row f hnull (pkFields ck) [] hf)]

theorem c3_missing_key_fields_error_witness :
    pkLookup [("users", PKKey.multi ["id", "org"])] "users" =
      some (PKKey.multi ["id", "org"]) ∧
    isNullish (rowGet [("id", JsVal.vNum 1)] "org") = true ∧
    extractPrimaryKey [] [("id", JsVal.vNum 1)] "users" [("users", PKKey.multi ["id", "org"])] =
      Except.error (PKError.fieldsMissing "users") :=
  ⟨by decide, by decide,
    c3_missing_key_fields_error [] [("id", JsVal.vNum 1)] "users"
      [("users", PKKey.multi ["id", "org"])] (PKKey.multi ["id", "org"]) (by decide) (by decide)
      "org" (by decide) (by decide)⟩

/-- C4 counterexample: identity is NOT invariant to reference sharing inside
the configured key values.  Three heap cells are all the empty object, so
the two rows carry structurally equal values in the configured fields "a"
and "b"; but in the first row both fields share one reference, which the
WeakSet guard of `safeStringifyForPK` renders as "[Circular]" on its second
occurrence, so the two identity strings differ. -/
theorem c4_reference_sharing_counterexample :
    heapGet [(0, []), (1, []), (2, [])] 0 = [] ∧
    heapGet [(0, []), (1, []), (2, [])] 1 = [] ∧
    heapGet [(0, []), (1, []), (2, [])] 2 = [] ∧
    extractPrimaryKey [(0, []), (1, []), (2, [])] [("a", JsVal.vObj 0), ("b", JsVal.vObj 0)] "t"
        [("t", PKKey.multi ["a", "b"])] ≠
      extractPrimaryKey [(0, []), (1, []), (2, [])] [("a", JsVal.vObj 1), ("b", JsVal.vObj 2)] "t"
        [("t", PKKey.multi ["a", "b"])] := by decide

/-- C4 (amended): `extractPrimaryKey` is a pure function of the heap and of
the values of the configured key fields only: two rows that agree on every
configured field (regardless of insertion order or of any other fields)
produce identical identity strings.  Reference sharing inside the key-field
values, however, is observable through the "[Circular]" guard — see the
counterexample — so agreement is agreement of references, not of structure. -/
theorem c4_identity_depends_only_on_key_fields (heap : Heap) (r1 r2 : Row) (t : String)
    (pkMap : PKMap) (ck : PKKey) (hlook : pkLookup pkMap t = some ck)
    (h : ∀ f ∈ pkFields ck, rowGet r1 f = rowGet r2 f) :
    extractPrimaryKey heap r1 t pkMap = extractPrimaryKey heap r2 t pkMap := by
  simp only [extractPrimaryKey, hlook]
  rw [extractConfigured_congr heap r1 r2 ck h]

theorem c4_identity_depends_only_on_key_fields_witness :
    pkLookup [("users", PKKey.single "id")] "users" = some (PKKey.single "id") ∧
    extractPrimaryKey [] [("x", JsVal.vStr "zzz"), ("id", JsVal.vNum 5)] "users"
        [("users", PKKey.single "id")] =
      extractPrimaryKey [] [("id", JsVal.vNum 5), ("y", JsVal.vBool true)] "users"
        [("users", PKKey.single "id")] :=
  ⟨by decide,
    c4_identity_depends_only_on_key_fields [] [("x", JsVal.vStr "zzz"), ("id", JsVal.vNum 5)]
      [("id", JsVal.vNum 5), ("y", JsVal.vBool true)] "users" [("users", PKKey.single "id")]
      (PKKey.single "id") (by decide) (by decide)⟩

/-- C5 counterexample: on the single-field path a Date is rendered by the JS
default Date-to-string conversion (`String(value)`), not ISO-8601: for the
epoch Date the code yields the weekday/month form, which differs from
`toISOString()`. -/
theorem c5_date_not_iso_counterexample :
    extractPrimaryKey [] [("at", JsVal.vDate 0)] "events" [("events", PKKey.single "at")] =
      Except.ok "Thu Jan 01 1970 00:00:00 GMT+0000 (Coordinated Universal Time)" ∧
    dateToISOString 0 = "1970-01-01T00:00:00.000Z" ∧
    extractPrimaryKey [] [("at", JsVal.vDate 0)] "events" [("events", PKKey.single "at")] ≠
      Except.ok (dateToISOString 0) := by decide

/-- C5 (amended): for every row and single-field specification (non-empty
field name) whose configured field is present, `extractPrimaryKey` returns
`String(value)`: numbers and strings stringified directly and BigInt in
decimal form as claimed, but a Date is rendered by the default
Date-to-string conversion, not ISO-8601 (ISO-8601 applies only on the
composite, `JSON.stringify` path) — see the counterexample. -/
theorem c5_single_field_canonical_string (heap : Heap) (row : Row) (t f : String)
    (pkMap : PKMap) (hlook : pkLookup pkMap t = some (PKKey.single f)) (hf : f ≠ "")
    (hpres : isNullish (rowGet row f) = false) :
    extractPrimaryKey heap row t pkMap = Except.ok (jsStringCoerce (rowGet row f)) := by
  have htru : pkTruthy (PKKey.single f) = true := by simp [pkTruthy, hf]
  rw [extractPK_of_configured heap row t pkMap _ hlook htru, configured_single heap row f hpres]

theorem c5_single_field_canonical_string_witness :
    pkLookup [("users", PKKey.single "id")] "users" = some (PKKey.single "id") ∧
    extractPrimaryKey [] [("id", JsVal.vNum 7)] "users" [("users", PKKey.single "id")] =
      Except.ok (jsStringCoerce (rowGet [("id", JsVal.vNum 7)] "id")) :=
  ⟨by decide,
    c5_single_field_canonical_string [] [("id", JsVal.vNum 7)] "users" "id"
      [("users", PKKey.single "id")] (by decide) (by decide) (by decide)⟩

/-- C6: identity serialization of rows whose key values contain reference
cycles terminates and replaces each cyclic reference by the fixed
"[Circular]" placeholder.  First conjunct: with the fuel bound used by
`safeStringifyForPK` the traversal never exhausts its fuel, for every heap
(cyclic heaps included) and every resolved row — the model-level statement
that the `WeakSet` guard makes the traversal finite.  Second conjunct: a
reference already in the seen-set (as every back-reference of a cycle is)
serializes to the quoted "[Circular]" token and the traversal continues. -/
theorem c6_cycle_serialization_terminates (heap : Heap) (resolved : Row) (fuel : Nat)
    (seen : List Nat) (r : Nat) (hr : r ∈ seen) :
    (serT heap (pkFuel heap resolved) [] (SerTask.fields resolved)).1 ≠ SerOut.fuelOut ∧
    serT heap fuel seen (SerTask.val (JsVal.vObj r)) =
      (SerOut.ok (jsonQuote "[Circular]"), seen) := by
  constructor
  · exact serT_no_fuelOut heap (pkFuel heap resolved) [] (SerTask.fields resolved) (le_refl _)
  · cases fuel with
    | zero => simp [serT, hr]
    | succ f => simp [serT, hr]

theorem c6_cycle_serialization_terminates_witness :
    (0 : Nat) ∈ [0] ∧
    ((serT [(0, [("self", JsVal.vObj 0)])]
        (pkFuel [(0, [("self", JsVal.vObj 0)])] [("a", JsVal.vObj 0), ("b", JsVal.vNum 1)]) []
        (SerTask.fields [("a", JsVal.vObj 0), ("b", JsVal.vNum 1)])).1 ≠ SerOut.fuelOut ∧
      serT [(0, [("self", JsVal.vObj 0)])] 5 [0] (SerTask.val (JsVal.vObj 0)) =
        (SerOut.ok (jsonQuote "[Circular]"), [0])) ∧
    extractPrimaryKey [(0, [("self", JsVal.vObj 0)])] [("a", JsVal.vObj 0), ("b", JsVal.vNum 1)]
        "t" [("t", PKKey.multi ["a", "b"])] =
      Except.ok "\x7b\"a\":\x7b\"self\":\"[Circular]\"\x7d,\"b\":1\x7d" :=
  ⟨by decide,
    c6_cycle_serialization_terminates [(0, [("self", JsVal.vObj 0)])]
      [("a", JsVal.vObj 0), ("b", JsVal.vNum 1)] 5 [0] 0 (by decide),
    by decide⟩

/-- C7: for every composite-key row (field-list specification not of length
one) that passed the presence check, `extractPrimaryKey` always succeeds —
it never raises past the fallback — and whenever structured serialization
fails (throws), the returned identity is exactly the deterministic fallback
built from the sorted key field names and their count. -/
theorem c7_composite_never_raises_fallback (heap : Heap) (row : Row) (t : String)
    (pkMap : PKMap) (fs : List String) (hlook : pkLookup pkMap t = some (PKKey.multi fs))
    (hlen : fs.length ≠ 1) (hpres : ∀ f ∈ fs, isNullish (rowGet row f) = false) :
    ∃ s, extractPrimaryKey heap row t pkMap = Except.ok s ∧
      ((serT heap (pkFuel heap (resolvedOf row fs)) [] (SerTask.fields (resolvedOf row fs))).1 =
          SerOut.thrown →
        s = compositeFallback (resolvedOf row fs)) := by
  have hfall : (serT heap (pkFuel heap (resolvedOf row fs)) []
        (SerTask.fields (resolvedOf row fs))).1 = SerOut.thrown →
      safeStringifyForPK heap (resolvedOf row fs) = compositeFallback (resolvedOf row fs) := by
    intro hth
    unfold safeStringifyForPK
    rcases hser : serT heap (pkFuel heap (resolvedOf row fs)) []
        (SerTask.fields (resolvedOf row fs)) with ⟨o, sn⟩
    rw [hser] at hth
    simp at hth
    subst hth
    rfl
  rw [extractPK_of_configured heap row t pkMap _ hlook rfl]
  match fs, hlen, hpres, hfall with
  | [], _, hpres, hfall =>
    have hcfg : extractConfiguredPrimaryKey heap row (PKKey.multi []) =
        some (safeStringifyForPK heap (resolvedOf row [])) := by
      simp only [extractConfiguredPrimaryKey, pkFields]
      rw [buildResolvedGo_resolvedOf row [] hpres]
    rw [hcfg]
    exact ⟨safeStringifyForPK heap (resolvedOf row []), rfl, hfall⟩
  | a :: b :: rest, _, hpres, hfall =>
    have hcfg : extractConfiguredPrimaryKey heap row (PKKey.multi (a :: b :: rest)) =
        some (safeStringifyForPK heap (resolvedOf row (a :: b :: rest))) := by
      simp only [extractConfiguredPrimaryKey, pkFields]
      rw [buildResolvedGo_resolvedOf row (a :: b :: rest) hpres]
    rw [hcfg]
    exact ⟨safeStringifyForPK heap (resolvedOf row (a :: b :: rest)), rfl, hfall⟩
  | [a], hlen, _, _ => exact absurd rfl hlen

theorem c7_composite_never_raises_fallback_witness :
    (∃ s, extractPrimaryKey [] [("a", JsVal.vExotic), ("b", JsVal.vNum 2)] "t"
        [("t", PKKey.multi ["a", "b"])] = Except.ok s ∧
      ((serT [] (pkFuel [] (resolvedOf [("a", JsVal.vExotic), ("b", JsVal.vNum 2)] ["a", "b"])) []
          (SerTask.fields (resolvedOf [("a", JsVal.vExotic), ("b", JsVal.vNum 2)] ["a", "b"]))).1 =
          SerOut.thrown →
        s = compositeFallback (resolvedOf [("a", JsVal.vExotic), ("b", JsVal.vNum 2)] ["a", "b"]))) ∧
    extractPrimaryKey [] [("a", JsVal.vExotic), ("b", JsVal.vNum 2)] "t"
        [("t", PKKey.multi ["a", "b"])] = Except.ok "composite_key_a_b_2" :=
  ⟨c7_composite_never_raises_fallback [] [("a", JsVal.vExotic), ("b", JsVal.vNum 2)] "t"
      [("t", PKKey.multi ["a", "b"])] ["a", "b"] (by decide) (by decide) (by decide),
    by decide⟩

/-- C8: `createAuditTableSQLFor` succeeds exactly on table names matching the
strict identifier pattern `[a-zA-Z_][a-zA-Z0-9_]*` — it fails for every
non-matching name and produces the setup SQL for every matching one, so no
unvalidated name is interpolated into the generated SQL. -/
theorem c8_table_name_validation (n : String) :
    exceptIsOk (createAuditTableSQLFor n) = isSafeIdentifier n := by
  unfold createAuditTableSQLFor buildCreateAuditTableSQL
  by_cases h : isSafeIdentifier n <;> simp [h, exceptIsOk]

/-- C9: a specification mapping a table to the empty field list is truthy,
skips the presence loop, and serializes the empty resolved object, so
`extractPrimaryKey` succeeds with the constant identity string for every
row — all rows of such a table share one identity. -/
theorem c9_empty_spec_constant_identity (heap : Heap) (row : Row) (t : String) (pkMap : PKMap)
    (hlook : pkLookup pkMap t = some (PKKey.multi [])) :
    extractPrimaryKey heap row t pkMap = Except.ok "\x7b\x7d" := by
  rw [extractPK_of_configured heap row t pkMap _ hlook rfl]
  have hcfg : extractConfiguredPrimaryKey heap row (PKKey.multi []) =
      some (safeStringifyForPK heap []) := by
    simp only [extractConfiguredPrimaryKey, pkFields, buildResolvedGo]
  rw [hcfg]
  have hstr : safeStringifyForPK heap [] = "\x7b\x7d" := by
    simp [safeStringifyForPK, serT]
  rw [hstr]

theorem c9_empty_spec_constant_identity_witness :
    pkLookup [("t", PKKey.multi [])] "t" = some (PKKey.multi []) ∧
    extractPrimaryKey [] [("x", JsVal.vNum 1)] "t" [("t", PKKey.multi [])] =
      Except.ok "\x7b\x7d" :=
  ⟨by decide,
    c9_empty_spec_constant_identity [] [("x", JsVal.vNum 1)] "t" [("t", PKKey.multi [])]
      (by decide)⟩

/-- C10: for every valid table name the generated SQL contains the five
CREATE INDEX IF NOT EXISTS statements under the fixed names prefixed
`idx_audit_logs_`, independent of the configured table name (the names are
literals; only the ON target varies), so a second audit table's index
creation reuses the first table's index names. -/
theorem c10_fixed_index_names (n : String) (h : isSafeIdentifier n = true) :
    ∃ pre post, createAuditTableSQLFor n = Except.ok
      (pre ++
       ("CREATE INDEX IF NOT EXISTS idx_audit_logs_table_record ON " ++ n ++ "(table_name, record_id);\n" ++
        ("CREATE INDEX IF NOT EXISTS idx_audit_logs_user_id ON " ++ n ++ "(user_id) WHERE user_id IS NOT NULL;\n" ++
         ("CREATE INDEX IF NOT EXISTS idx_audit_logs_created_at ON " ++ n ++ "(created_at DESC);\n" ++
          ("CREATE INDEX IF NOT EXISTS idx_audit_logs_action ON " ++ n ++ "(action);\n" ++
           ("CREATE INDEX IF NOT EXISTS idx_audit_logs_table_created ON " ++ n ++ "(table_name, created_at DESC);\n"))))) ++
       post) := by
  refine ⟨"\n-- Prevent concurrent test runs from racing on schema creation\nSELECT pg_advisory_xact_lock(913742, 540129);\n\nCREATE SEQUENCE IF NOT EXISTS " ++
    n ++ "_id_seq;\n\nCREATE TABLE IF NOT EXISTS " ++ n ++
    " (\n  id BIGINT PRIMARY KEY DEFAULT nextval(" ++ sqm ++ n ++ "_id_seq" ++ sqm ++
    "),\n  \n  user_id VARCHAR(255),\n  ip_address VARCHAR(45),\n  user_agent TEXT,\n  \n  action VARCHAR(255) NOT NULL,\n  table_name VARCHAR(255) NOT NULL,\n  record_id VARCHAR(255) NOT NULL,\n  \n  \"values\" JSONB,\n  \n  created_at TIMESTAMPTZ NOT NULL DEFAULT NOW(),\n  \n  metadata JSONB,\n  transaction_id VARCHAR(255),\n  \n  deleted_at TIMESTAMPTZ\n);\n\nALTER SEQUENCE " ++
    n ++ "_id_seq OWNED BY " ++ n ++
    ".id;\n\n-- Ensure custom actions are allowed when table already exists\nALTER TABLE " ++
    n ++ " DROP CONSTRAINT IF EXISTS audit_logs_action_check;\nALTER TABLE " ++ n ++
    " ALTER COLUMN action TYPE VARCHAR(255);\n\n",
    "\nCOMMENT ON TABLE " ++ n ++ " IS " ++ sqm ++ "Audit trail for all database operations" ++ sqm ++ ";\n", ?_⟩
  have hsql : auditTableSQLText n =
      ("\n-- Prevent concurrent test runs from racing on schema creation\nSELECT pg_advisory_xact_lock(913742, 540129);\n\nCREATE SEQUENCE IF NOT EXISTS " ++
       n ++ "_id_seq;\n\nCREATE TABLE IF NOT EXISTS " ++ n ++
       " (\n  id BIGINT PRIMARY KEY DEFAULT nextval(" ++ sqm ++ n ++ "_id_seq" ++ sqm ++
       "),\n  \n  user_id VARCHAR(255),\n  ip_address VARCHAR(45),\n  user_agent TEXT,\n  \n  action VARCHAR(255) NOT NULL,\n  table_name VARCHAR(255) NOT NULL,\n  record_id VARCHAR(255) NOT NULL,\n  \n  \"values\" JSONB,\n  \n  created_at TIMESTAMPTZ NOT NULL DEFAULT NOW(),\n  \n  metadata JSONB,\n  transaction_id VARCHAR(255),\n  \n  deleted_at TIMESTAMPTZ\n);\n\nALTER SEQUENCE " ++
       n ++ "_id_seq OWNED BY " ++ n ++
       ".id;\n\n-- Ensure custom actions are allowed when table already exists\nALTER TABLE " ++
       n ++ " DROP CONSTRAINT IF EXISTS audit_logs_action_check;\nALTER TABLE " ++ n ++
       " ALTER COLUMN action TYPE VARCHAR(255);\n\n") ++
      ("CREATE INDEX IF NOT EXISTS idx_audit_logs_table_record ON " ++ n ++ "(table_name, record_id);\n" ++
       ("CREATE INDEX IF NOT EXISTS idx_audit_logs_user_id ON " ++ n ++ "(user_id) WHERE user_id IS NOT NULL;\n" ++
        ("CREATE INDEX IF NOT EXISTS idx_audit_logs_created_at ON " ++ n ++ "(created_at DESC);\n" ++
         ("CREATE INDEX IF NOT EXISTS idx_audit_logs_action ON " ++ n ++ "(action);\n" ++
          ("CREATE INDEX IF NOT EXISTS idx_audit_logs_table_created ON " ++ n ++ "(table_name, created_at DESC);\n"))))) ++
      ("\nCOMMENT ON TABLE " ++ n ++ " IS " ++ sqm ++ "Audit trail for all database operations" ++ sqm ++ ";\n") := by
    simp only [auditTableSQLText, String.append_assoc]
  unfold createAuditTableSQLFor buildCreateAuditTableSQL
  rw [if_pos h, hsql]

theorem c10_fixed_index_names_witness :
    isSafeIdentifier "audit_logs_two" = true ∧
    (∃ pre post, createAuditTableSQLFor "audit_logs_two" = Except.ok
      (pre ++
       ("CREATE INDEX IF NOT EXISTS idx_audit_logs_table_record ON " ++ "audit_logs_two" ++ "(table_name, record_id);\n" ++
        ("CREATE INDEX IF NOT EXISTS idx_audit_logs_user_id ON " ++ "audit_logs_two" ++ "(user_id) WHERE user_id IS NOT NULL;\n" ++
         ("CREATE INDEX IF NOT EXISTS idx_audit_logs_created_at ON " ++ "audit_logs_two" ++ "(created_at DESC);\n" ++
          ("CREATE INDEX IF NOT EXISTS idx_audit_logs_action ON " ++ "audit_logs_two" ++ "(action);\n" ++
           ("CREATE INDEX IF NOT EXISTS idx_audit_logs_table_created ON " ++ "audit_logs_two" ++ "(table_name, created_at DESC);\n"))))) ++
       post)) :=
  ⟨by decide, c10_fixed_index_names "audit_logs_two" (by decide)⟩
